import Mathlib

/-!
# LookMaNoMatrices — motor algebra kernel and scene-transform pipeline

A shallow embedding, over the real numbers, of the PGA motor kernel
(`miniPGA.js`), the per-vertex skinning blend (`shaders.js` vertex shader),
the node-transform / skinning resolvers (`miniRender.js`) and the glTF
animation sampler (`miniGLTF.js`).  Layouts follow the source:

* motor  : `[s, e23, e31, e12, e01, e02, e03, e0123]`
* line   : `[e23, e31, e12, e01, e02, e03]`
* point  : `[e032, e013, e021]` with implied `1` e123 coefficient
-/

noncomputable section

namespace LookMa

open Real

/-- A Euclidean 3-vector (point, direction, or scale triple). -/
structure V3 where
  x : ℝ
  y : ℝ
  z : ℝ

/-- A 4-vector; used for glTF quaternions `[x, y, z, w]` and weights. -/
structure V4 where
  x : ℝ
  y : ℝ
  z : ℝ
  w : ℝ

/-- A PGA motor `[s, e23, e31, e12, e01, e02, e03, e0123]` (miniPGA.js layout). -/
structure Motor where
  m0 : ℝ
  m1 : ℝ
  m2 : ℝ
  m3 : ℝ
  m4 : ℝ
  m5 : ℝ
  m6 : ℝ
  m7 : ℝ

/-- A PGA bivector / line `[e23, e31, e12, e01, e02, e03]` (miniPGA.js layout). -/
structure Biv where
  b0 : ℝ
  b1 : ℝ
  b2 : ℝ
  b3 : ℝ
  b4 : ℝ
  b5 : ℝ

theorem v3_eq_iff {a b : V3} : a = b ↔ a.x = b.x ∧ a.y = b.y ∧ a.z = b.z := by
  cases a; cases b; simp

theorem motor_eq_iff {a b : Motor} :
    a = b ↔ a.m0 = b.m0 ∧ a.m1 = b.m1 ∧ a.m2 = b.m2 ∧ a.m3 = b.m3 ∧
      a.m4 = b.m4 ∧ a.m5 = b.m5 ∧ a.m6 = b.m6 ∧ a.m7 = b.m7 := by
  cases a; cases b; simp

theorem biv_eq_iff {a b : Biv} :
    a = b ↔ a.b0 = b.b0 ∧ a.b1 = b.b1 ∧ a.b2 = b.b2 ∧
      a.b3 = b.b3 ∧ a.b4 = b.b4 ∧ a.b5 = b.b5 := by
  cases a; cases b; simp

/-- The identity motor `[1,0,0,0, 0,0,0,0]` (miniPGA.js `identity`). -/
def identityM : Motor := ⟨1, 0, 0, 0, 0, 0, 0, 0⟩

/-- `sw_mo` (miniPGA.js): apply a normalized motor `a` to the origin `e123`. -/
def sw_mo (a : Motor) : V3 :=
  ⟨2 * (a.m2 * a.m6 - a.m0 * a.m4 - a.m1 * a.m7 - a.m3 * a.m5),
   2 * (a.m3 * a.m4 - a.m0 * a.m5 - a.m1 * a.m6 - a.m2 * a.m7),
   2 * (a.m1 * a.m5 - a.m0 * a.m6 - a.m2 * a.m4 - a.m3 * a.m7)⟩

/-- `exp_b` (miniPGA.js): general exponential of a bivector.  When the
Euclidean part has zero square norm it short-circuits to the simple
translator `[1,0,0,0,B.e01,B.e02,B.e03,0]`. -/
def exp_b (B : Biv) : Motor :=
  let l := B.b0 ^ 2 + B.b1 ^ 2 + B.b2 ^ 2
  if l = 0 then ⟨1, 0, 0, 0, B.b3, B.b4, B.b5, 0⟩ else
  let a := Real.sqrt l
  let m := B.b0 * B.b3 + B.b1 * B.b4 + B.b2 * B.b5
  let c := Real.cos a
  let s := Real.sin a / a
  let t := m / l * (c - s)
  ⟨c, B.b0 * s, B.b1 * s, B.b2 * s,
   B.b3 * s + B.b0 * t, B.b4 * s + B.b1 * t, B.b5 * s + B.b2 * t, m * s⟩

/-- `log_m` (miniPGA.js): general logarithm of a normalized motor, with the
near-identity short-circuit `|M.s - 1| < 1e-6`. -/
def log_m (M : Motor) : Biv :=
  if |M.m0 - 1| < 0.000001 then ⟨0, 0, 0, M.m4, M.m5, M.m6⟩ else
  let a := 1 / (1 - M.m0 ^ 2)
  let b := Real.arccos M.m0 * Real.sqrt a
  let c := a * M.m7 * (1 - M.m0 * b)
  ⟨M.m1 * b, M.m2 * b, M.m3 * b,
   M.m4 * b + M.m1 * c, M.m5 * b + M.m2 * c, M.m6 * b + M.m3 * c⟩

/-- `gp_mm` (miniPGA.js): full geometric product of two motors. -/
def gp_mm (a b : Motor) : Motor :=
  ⟨a.m0 * b.m0 - a.m1 * b.m1 - a.m2 * b.m2 - a.m3 * b.m3,
   a.m0 * b.m1 + a.m1 * b.m0 + a.m3 * b.m2 - a.m2 * b.m3,
   a.m0 * b.m2 + a.m1 * b.m3 + a.m2 * b.m0 - a.m3 * b.m1,
   a.m0 * b.m3 + a.m2 * b.m1 + a.m3 * b.m0 - a.m1 * b.m2,
   a.m0 * b.m4 + a.m3 * b.m5 + a.m4 * b.m0 + a.m6 * b.m2
     - a.m1 * b.m7 - a.m2 * b.m6 - a.m5 * b.m3 - a.m7 * b.m1,
   a.m0 * b.m5 + a.m1 * b.m6 + a.m4 * b.m3 + a.m5 * b.m0
     - a.m2 * b.m7 - a.m3 * b.m4 - a.m6 * b.m1 - a.m7 * b.m2,
   a.m0 * b.m6 + a.m2 * b.m4 + a.m5 * b.m1 + a.m6 * b.m0
     - a.m1 * b.m5 - a.m3 * b.m7 - a.m4 * b.m2 - a.m7 * b.m3,
   a.m0 * b.m7 + a.m1 * b.m4 + a.m2 * b.m5 + a.m3 * b.m6
     + a.m4 * b.m1 + a.m5 * b.m2 + a.m6 * b.m3 + a.m7 * b.m0⟩

/-- `normalize_m` (miniPGA.js): rescale the rotational part to unit norm and
apply the first-order `d` correction to the ideal part. -/
def normalize_m (a : Motor) : Motor :=
  let s := 1 / Real.sqrt (a.m0 ^ 2 + a.m1 ^ 2 + a.m2 ^ 2 + a.m3 ^ 2)
  let d := (a.m7 * a.m0 - (a.m4 * a.m1 + a.m5 * a.m2 + a.m6 * a.m3)) * s * s
  ⟨a.m0 * s, a.m1 * s, a.m2 * s, a.m3 * s,
   a.m4 * s + a.m1 * s * d, a.m5 * s + a.m2 * s * d,
   a.m6 * s + a.m3 * s * d, a.m7 * s - a.m0 * s * d⟩

/-!
## C1 — `exp_b` of a pure-translation generator applied to the origin

`exp_b [0,0,0,d,0,0]` takes the zero-rotation short-circuit and yields the
translator `[1,0,0,0,d,0,0,0]`; `sw_mo` maps the origin to `(-2d, 0, 0)`.
The spec's Scenario B expects `(1,0,0)` for `d = 1`, but the code's
translator convention stores `-t/2` in `e01` for a translation by `t`
(cf. miniGLTF.js load, `translation.map(x => -x/2)`), so the actual image
of the origin is `(-2, 0, 0)`.
-/

/-- C1 (counterexample): applying `exp_b [0,0,0,1,0,0]` to the origin does
not give the point `(1,0,0)` claimed by the spec's Scenario B. -/
theorem sw_mo_exp_b_ideal_x_ne_one_zero_zero :
    sw_mo (exp_b ⟨0, 0, 0, 1, 0, 0⟩) ≠ V3.mk 1 0 0 := by
  have h : exp_b ⟨0, 0, 0, 1, 0, 0⟩ = ⟨1, 0, 0, 0, 1, 0, 0, 0⟩ := by
    rw [exp_b, if_pos (by norm_num)]
  rw [h]
  simp [sw_mo, v3_eq_iff]
  norm_num

/-- C1 (amended): applying `exp_b [0,0,0,d,0,0]` to the origin returns
`(-2d, 0, 0)`: the translation distance is minus twice the bivector's ideal
component, matching the loader's `-t/2` translator convention. -/
theorem sw_mo_exp_b_ideal_x (d : ℝ) :
    sw_mo (exp_b ⟨0, 0, 0, d, 0, 0⟩) = V3.mk (-(2 * d)) 0 0 := by
  have h : exp_b ⟨0, 0, 0, d, 0, 0⟩ = ⟨1, 0, 0, 0, d, 0, 0, 0⟩ := by
    rw [exp_b, if_pos (by norm_num)]
  rw [h]
  simp [sw_mo, v3_eq_iff]

/-!
## C2 — `log_m` after `exp_b` round trip

Exact over the reals the round trip holds for rotational magnitude `a = 0`
(the two short-circuits match up) and for `0 < a < π` as long as `log_m`'s
near-identity window `|M.s - 1| < 1e-6` is not entered.  It fails outside
that range: a full turn `a = 2π` wraps to the identity motor.
-/

/-- C2 (counterexample): the round trip fails at `B = [2π,0,0,0,0,0]`:
`exp_b` maps the full turn to the identity motor, whose `log_m` is zero. -/
theorem log_exp_roundtrip_fails_at_two_pi :
    log_m (exp_b ⟨2 * π, 0, 0, 0, 0, 0⟩) ≠ Biv.mk (2 * π) 0 0 0 0 0 := by
  have hs : Real.sqrt ((2 * π) ^ 2 + (0:ℝ) ^ 2 + (0:ℝ) ^ 2) = 2 * π := by
    rw [show (2 * π) ^ 2 + (0:ℝ) ^ 2 + (0:ℝ) ^ 2 = (2 * π) ^ 2 by ring,
      Real.sqrt_sq (by positivity)]
  have hexp : exp_b ⟨2 * π, 0, 0, 0, 0, 0⟩ = ⟨1, 0, 0, 0, 0, 0, 0, 0⟩ := by
    rw [exp_b, if_neg (by positivity)]
    simp only [hs, Real.cos_two_pi, Real.sin_two_pi]
    simp [motor_eq_iff]
  rw [hexp, log_m, if_pos (by norm_num)]
  simp [biv_eq_iff]
  intro h
  exact absurd h.symm (by positivity)

/-- C2 (amended): `log_m (exp_b B) = B` holds exactly (over ℝ) whenever the
rotational magnitude `a` of `B` is `0` (degenerate translator case, both
short-circuits fire) or lies in `(0, π)` outside `log_m`'s near-identity
window, i.e. `1e-6 ≤ 1 - cos a`. -/
theorem log_exp_roundtrip (B : Biv) (a : ℝ)
    (hl : B.b0 ^ 2 + B.b1 ^ 2 + B.b2 ^ 2 = a ^ 2)
    (hcase : a = 0 ∨ (0 < a ∧ a < π ∧ (0.000001:ℝ) ≤ 1 - Real.cos a)) :
    log_m (exp_b B) = B := by
  rcases hcase with ha | ⟨ha, haπ, hwin⟩
  · -- degenerate translator case: the Euclidean part of B is zero
    subst ha
    have h0 : B.b0 ^ 2 + B.b1 ^ 2 + B.b2 ^ 2 = 0 := by rw [hl]; ring
    have hb0 : B.b0 = 0 := by
      have := sq_nonneg B.b0; have := sq_nonneg B.b1; have := sq_nonneg B.b2
      nlinarith
    have hb1 : B.b1 = 0 := by
      have := sq_nonneg B.b0; have := sq_nonneg B.b1; have := sq_nonneg B.b2
      nlinarith
    have hb2 : B.b2 = 0 := by
      have := sq_nonneg B.b0; have := sq_nonneg B.b1; have := sq_nonneg B.b2
      nlinarith
    rw [exp_b, if_pos h0, log_m, if_pos (by norm_num)]
    simp [biv_eq_iff, hb0, hb1, hb2]
  · -- main case: 0 < a < π, outside the near-identity window
    have hane : a ≠ 0 := ha.ne'
    have hlne : B.b0 ^ 2 + B.b1 ^ 2 + B.b2 ^ 2 ≠ 0 := by rw [hl]; positivity
    have hsq : Real.sqrt (a ^ 2) = a := Real.sqrt_sq ha.le
    have hsin : 0 < Real.sin a := Real.sin_pos_of_pos_of_lt_pi ha haπ
    have hsin2 : 1 - Real.cos a ^ 2 = Real.sin a ^ 2 := by
      have := Real.sin_sq_add_cos_sq a; linarith
    have hnotwin : ¬ |Real.cos a - 1| < 0.000001 := by
      rw [abs_of_nonpos (by linarith [Real.cos_le_one a])]
      intro hcon; linarith
    rw [exp_b, if_neg hlne]
    simp only [hl, hsq]
    rw [log_m, if_neg hnotwin]
    simp only [Real.arccos_cos ha.le haπ.le, hsin2, one_div, Real.sqrt_inv,
      Real.sqrt_sq hsin.le]
    rw [biv_eq_iff]
    refine ⟨?_, ?_, ?_, ?_, ?_, ?_⟩ <;> field_simp <;> ring

/-- Witness for C2 (amended) at the quarter-turn bivector `[π/2,0,0,0,0,0]`. -/
theorem log_exp_roundtrip_witness :
    ((π / 2) ^ 2 + (0:ℝ) ^ 2 + (0:ℝ) ^ 2 = (π / 2) ^ 2 ∧
      (0 < π / 2 ∧ π / 2 < π ∧ (0.000001:ℝ) ≤ 1 - Real.cos (π / 2))) ∧
    log_m (exp_b ⟨π / 2, 0, 0, 0, 0, 0⟩) = Biv.mk (π / 2) 0 0 0 0 0 := by
  have h1 : (π / 2) ^ 2 + (0:ℝ) ^ 2 + (0:ℝ) ^ 2 = (π / 2) ^ 2 := by ring
  have h2 : 0 < π / 2 ∧ π / 2 < π ∧ (0.000001:ℝ) ≤ 1 - Real.cos (π / 2) :=
    ⟨by positivity, by linarith [Real.pi_pos], by rw [Real.cos_pi_div_two]; norm_num⟩
  exact ⟨⟨h1, h2⟩, log_exp_roundtrip ⟨π / 2, 0, 0, 0, 0, 0⟩ (π / 2) h1 (Or.inr h2)⟩

/-!
## C3 — `normalize_m` restores both data-model invariants
-/

/-- C3: for every motor whose rotational part `(s,e23,e31,e12)` is not all
zero, `normalize_m` returns a motor satisfying both normalization
invariants: `s² + e23² + e31² + e12² = 1` and
`s·e0123 = e23·e01 + e31·e02 + e12·e03`, exactly over the reals. -/
theorem normalize_m_invariants (a : Motor)
    (h : ¬(a.m0 = 0 ∧ a.m1 = 0 ∧ a.m2 = 0 ∧ a.m3 = 0)) :
    (normalize_m a).m0 ^ 2 + (normalize_m a).m1 ^ 2 +
      (normalize_m a).m2 ^ 2 + (normalize_m a).m3 ^ 2 = 1 ∧
    (normalize_m a).m0 * (normalize_m a).m7 =
      (normalize_m a).m1 * (normalize_m a).m4 +
      (normalize_m a).m2 * (normalize_m a).m5 +
      (normalize_m a).m3 * (normalize_m a).m6 := by
  have h0 : a.m0 ^ 2 + a.m1 ^ 2 + a.m2 ^ 2 + a.m3 ^ 2 ≠ 0 := by
    intro h0
    have e0 : a.m0 = 0 := by
      have := sq_nonneg a.m1; have := sq_nonneg a.m2; have := sq_nonneg a.m3
      nlinarith [sq_nonneg a.m0]
    have e1 : a.m1 = 0 := by
      have := sq_nonneg a.m0; have := sq_nonneg a.m2; have := sq_nonneg a.m3
      nlinarith [sq_nonneg a.m1]
    have e2 : a.m2 = 0 := by
      have := sq_nonneg a.m0; have := sq_nonneg a.m1; have := sq_nonneg a.m3
      nlinarith [sq_nonneg a.m2]
    have e3 : a.m3 = 0 := by
      have := sq_nonneg a.m0; have := sq_nonneg a.m1; have := sq_nonneg a.m2
      nlinarith [sq_nonneg a.m3]
    exact h ⟨e0, e1, e2, e3⟩
  have hq : 0 < a.m0 ^ 2 + a.m1 ^ 2 + a.m2 ^ 2 + a.m3 ^ 2 :=
    lt_of_le_of_ne (by positivity) (Ne.symm h0)
  have hr2 : Real.sqrt (a.m0 ^ 2 + a.m1 ^ 2 + a.m2 ^ 2 + a.m3 ^ 2) ^ 2 =
      a.m0 ^ 2 + a.m1 ^ 2 + a.m2 ^ 2 + a.m3 ^ 2 := Real.sq_sqrt hq.le
  have hr0 : Real.sqrt (a.m0 ^ 2 + a.m1 ^ 2 + a.m2 ^ 2 + a.m3 ^ 2) ≠ 0 :=
    (Real.sqrt_pos.mpr hq).ne'
  constructor
  · simp only [normalize_m]
    field_simp
  · simp only [normalize_m]
    field_simp
    ring

/-- Witness for C3 at the motor `[2,0,0,0,3,0,0,0]`. -/
theorem normalize_m_invariants_witness :
    (¬((2:ℝ) = 0 ∧ (0:ℝ) = 0 ∧ (0:ℝ) = 0 ∧ (0:ℝ) = 0)) ∧
    ((normalize_m ⟨2, 0, 0, 0, 3, 0, 0, 0⟩).m0 ^ 2 +
       (normalize_m ⟨2, 0, 0, 0, 3, 0, 0, 0⟩).m1 ^ 2 +
       (normalize_m ⟨2, 0, 0, 0, 3, 0, 0, 0⟩).m2 ^ 2 +
       (normalize_m ⟨2, 0, 0, 0, 3, 0, 0, 0⟩).m3 ^ 2 = 1 ∧
     (normalize_m ⟨2, 0, 0, 0, 3, 0, 0, 0⟩).m0 *
         (normalize_m ⟨2, 0, 0, 0, 3, 0, 0, 0⟩).m7 =
       (normalize_m ⟨2, 0, 0, 0, 3, 0, 0, 0⟩).m1 *
           (normalize_m ⟨2, 0, 0, 0, 3, 0, 0, 0⟩).m4 +
         (normalize_m ⟨2, 0, 0, 0, 3, 0, 0, 0⟩).m2 *
           (normalize_m ⟨2, 0, 0, 0, 3, 0, 0, 0⟩).m5 +
         (normalize_m ⟨2, 0, 0, 0, 3, 0, 0, 0⟩).m3 *
           (normalize_m ⟨2, 0, 0, 0, 3, 0, 0, 0⟩).m6) :=
  ⟨by norm_num, normalize_m_invariants ⟨2, 0, 0, 0, 3, 0, 0, 0⟩ (by norm_num)⟩

/-!
## C4 — the skinning resolver packs `gp_mm(world, inverseBind)` per joint

miniRender.js `render`, skins loop:
`m = gp_mm(skin.joints[i].worldTransform ?? skin.joints[i].transform,
skin.inverseBindMotors[i], m); skin.array.set(m, k); k += 8;`
-/

instance : Inhabited Motor := ⟨identityM⟩

/-- The 8 motor components in flat buffer order. -/
def motorComps (m : Motor) : List ℝ :=
  [m.m0, m.m1, m.m2, m.m3, m.m4, m.m5, m.m6, m.m7]

/-- A skin joint as the skinning resolver sees it: the `worldTransform`
written by `xform` (absent if the joint was never visited) and the local
`transform` used as fallback. -/
structure Joint where
  worldTransform : Option Motor
  transform : Motor

instance : Inhabited Joint := ⟨⟨none, identityM⟩⟩

/-- `skin.joints[i].worldTransform ?? skin.joints[i].transform`. -/
def jointWorld (j : Joint) : Motor := j.worldTransform.getD j.transform

/-- The flat per-joint skin buffer built by the skins loop of
miniRender.js `render`: per joint, the 8 components of
`gp_mm(jointWorld, inverseBindMotor)` at consecutive offsets. -/
def skinArray : List Joint → List Motor → List ℝ
  | j :: js, b :: bs => motorComps (gp_mm (jointWorld j) b) ++ skinArray js bs
  | _, _ => []

/-- C4: for every joint index `i` of a recomputed skin, the flat output
array contains at offset `8·i` exactly the 8 components of
`gp_mm(jointWorldMotor[i], inverseBindMotor[i])`, packed in joint order. -/
theorem skinArray_at (js : List Joint) (bs : List Motor) (i : Nat)
    (h1 : i < js.length) (h2 : i < bs.length) :
    ((skinArray js bs).drop (8 * i)).take 8 =
      motorComps (gp_mm (jointWorld (js.getD i default)) (bs.getD i default)) := by
  induction js generalizing bs i with
  | nil => simp at h1
  | cons j js ih =>
    cases bs with
    | nil => simp at h2
    | cons b bs =>
      cases i with
      | zero =>
        simp [skinArray, motorComps]
      | succ n =>
        have hlen : (motorComps (gp_mm (jointWorld j) b)).length = 8 := rfl
        have hstep : 8 * (n + 1) = (motorComps (gp_mm (jointWorld j) b)).length + 8 * n := by
          rw [hlen]; ring
        rw [skinArray, hstep, List.drop_append]
        have h1' : n < js.length := by simpa using h1
        have h2' : n < bs.length := by simpa using h2
        simpa using ih bs n h1' h2'

/-- Witness for C4 on a two-joint skin, at joint index 1. -/
theorem skinArray_at_witness :
    ((1:Nat) < [Joint.mk (some identityM) identityM, Joint.mk none identityM].length ∧
      (1:Nat) < [identityM, identityM].length) ∧
    ((skinArray [Joint.mk (some identityM) identityM, Joint.mk none identityM]
        [identityM, identityM]).drop (8 * 1)).take 8 =
      motorComps (gp_mm (jointWorld
        ([Joint.mk (some identityM) identityM, Joint.mk none identityM].getD 1 default))
        ([identityM, identityM].getD 1 default)) :=
  ⟨⟨by norm_num, by norm_num⟩,
   skinArray_at _ _ 1 (by norm_num) (by norm_num)⟩

/-!
## C5 — per-vertex blending with short-path sign disambiguation

The generated vertex shader (shaders.js) blends up to 4 weighted joint
motors; before motors 2..4 are accumulated they are negated in full iff
`dot(r[0], bk[0]) <= 0`, and the sum is passed through `normalize_m`
before being composed with the object-to-world motor.
-/

/-- GLSL componentwise scaling `w * m` of a `mat2x4` motor. -/
def smulM (w : ℝ) (m : Motor) : Motor :=
  ⟨w * m.m0, w * m.m1, w * m.m2, w * m.m3,
   w * m.m4, w * m.m5, w * m.m6, w * m.m7⟩

/-- GLSL componentwise addition of two `mat2x4` motors. -/
def addM (a b : Motor) : Motor :=
  ⟨a.m0 + b.m0, a.m1 + b.m1, a.m2 + b.m2, a.m3 + b.m3,
   a.m4 + b.m4, a.m5 + b.m5, a.m6 + b.m6, a.m7 + b.m7⟩

/-- GLSL full negation `-m` of a `mat2x4` motor (all 8 components). -/
def negM (m : Motor) : Motor :=
  ⟨-m.m0, -m.m1, -m.m2, -m.m3, -m.m4, -m.m5, -m.m6, -m.m7⟩

/-- GLSL `dot(a[0], b[0])`: dot product of the rotational parts. -/
def dotRot (a b : Motor) : ℝ :=
  a.m0 * b.m0 + a.m1 * b.m1 + a.m2 * b.m2 + a.m3 * b.m3

/-- The skinning blend of the vertex shader (shaders.js), verbatim:
`r = w.x*b1; if (dot(r[0],b2[0])<=0) b2 = -b2; r += w.y*b2; ...`. -/
def blendBones (w : V4) (b1 b2 b3 b4 : Motor) : Motor :=
  let r1 := smulM w.x b1
  let b2a := if dotRot r1 b2 ≤ 0 then negM b2 else b2
  let r2 := addM r1 (smulM w.y b2a)
  let b3a := if dotRot r2 b3 ≤ 0 then negM b3 else b3
  let r3 := addM r2 (smulM w.z b3a)
  let b4a := if dotRot r3 b4 ≤ 0 then negM b4 else b4
  addM r3 (smulM w.w b4a)

/-- `toWorld = gp(toWorld, normalize_m(r))` from the vertex shader. -/
def skinnedToWorld (world : Motor) (w : V4) (b1 b2 b3 b4 : Motor) : Motor :=
  gp_mm world (normalize_m (blendBones w b1 b2 b3 b4))

/-- Modelled from the spec's words (§4.3), for comparison with the shader
code: before accumulating weighted motor `k` into the running sum, the
weighted motor is negated in full iff the dot product between the
rotational parts of the running sum and motor `k` is `≤ 0`. -/
def blendStepSpec (acc : Motor) (w : ℝ) (b : Motor) : Motor :=
  if dotRot acc b ≤ 0 then addM acc (negM (smulM w b)) else addM acc (smulM w b)

/-- Modelled from the spec's words (§4.3): fold the four weighted joint
motors through `blendStepSpec`, starting from the first weighted motor. -/
def blendBonesSpec (w : V4) (b1 b2 b3 b4 : Motor) : Motor :=
  blendStepSpec (blendStepSpec (blendStepSpec (smulM w.x b1) w.y b2) w.z b3) w.w b4

/-- Modelled from the spec's words (§4.3): the blended sum is renormalized
with `normalize_m` before being composed with the object-to-world motor. -/
def skinnedToWorldSpec (world : Motor) (w : V4) (b1 b2 b3 b4 : Motor) : Motor :=
  gp_mm world (normalize_m (blendBonesSpec w b1 b2 b3 b4))

/-- Negating a scaled motor in full equals scaling the negated motor. -/
theorem negM_smulM (w : ℝ) (m : Motor) : negM (smulM w m) = smulM w (negM m) := by
  simp [negM, smulM, motor_eq_iff]

/-- One spec blend step, rewritten in the shader's shape. -/
theorem blendStepSpec_eq (acc : Motor) (w : ℝ) (b : Motor) :
    blendStepSpec acc w b =
      addM acc (smulM w (if dotRot acc b ≤ 0 then negM b else b)) := by
  rw [blendStepSpec]
  split_ifs with h
  · rw [negM_smulM]
  · rfl

/-- C5: the vertex shader's blend — negate each of motors 2..4 in full iff
the dot of the rotational parts of the running sum and that motor is `≤ 0`,
then renormalize and compose with the object-to-world motor — agrees with
the spec's step-by-step description for all weights and joint motors. -/
theorem skinnedToWorld_eq_spec (world : Motor) (w : V4) (b1 b2 b3 b4 : Motor) :
    skinnedToWorld world w b1 b2 b3 b4 = skinnedToWorldSpec world w b1 b2 b3 b4 := by
  rw [skinnedToWorld, skinnedToWorldSpec, blendBones, blendBonesSpec,
    blendStepSpec_eq, blendStepSpec_eq, blendStepSpec_eq]

/-!
## C6 — node transform resolver: dirty/clean transitions

Two passes touch node transforms each frame.  The render pass
(miniRender.js `renderNode`, `trans === 0` branch) marks a node dirty when
its parent changed, recomputes `world = gp_mm(parentWorld, transform)` and
clears the flag exactly for dirty nodes, and recurses with
`parentChanged = true` after a recompute.  The skeleton pre-pass
(miniRender.js `xform`) recomputes `worldTransform` unconditionally and
only ORs the incoming flag into `cur.changed` — it never clears the flag.
-/

/-- A scene-graph node: local motor (`transform`), the render pass's cached
`world` motor, the skeleton pass's cached `worldTransform` motor (each
absent before its pass first visits the node), the `changed` dirty flag,
and the owned children. -/
inductive NTree where
  | node (loc : Motor) (world : Option Motor) (worldT : Option Motor)
      (changed : Bool) (children : List NTree)

instance : Inhabited NTree := ⟨.node identityM none none false []⟩

/-- The node's local motor (`node.transform`). -/
def NTree.locOf : NTree → Motor
  | .node l _ _ _ _ => l

/-- The node's cached render-pass world motor (`node.world`). -/
def NTree.worldOf : NTree → Option Motor
  | .node _ w _ _ _ => w

/-- The node's cached skeleton-pass world motor (`node.worldTransform`). -/
def NTree.worldTOf : NTree → Option Motor
  | .node _ _ w _ _ => w

/-- The node's dirty flag (`node.changed`). -/
def NTree.changedOf : NTree → Bool
  | .node _ _ _ c _ => c

/-- The node's children list. -/
def NTree.childrenOf : NTree → List NTree
  | .node _ _ _ _ cs => cs

mutual

/-- The transform-accumulation part of miniRender.js `renderNode` (opaque
pass, `trans === 0`): `if (parentChanged === true) node.changed = true;`
then, when `node.changed !== false`, recompute
`world = gp_mm(parentWorld, node.transform)`, clear the flag and recurse
with `parentChanged = true`; otherwise recurse with `node.world || identity`
and the incoming `parentChanged`. -/
def renderNodeT (pw : Motor) (pc : Bool) : NTree → NTree
  | .node loc world worldT changed children =>
    let ch1 := if pc = true then true else changed
    if ch1 = true then
      .node loc (some (gp_mm pw loc)) worldT false
        (renderListT (gp_mm pw loc) true children)
    else
      .node loc world worldT ch1 (renderListT (world.getD identityM) pc children)

/-- `renderNodeT` over a list of children. -/
def renderListT (pw : Motor) (pc : Bool) : List NTree → List NTree
  | [] => []
  | t :: ts => renderNodeT pw pc t :: renderListT pw pc ts

end

mutual

/-- miniRender.js `xform` (skeleton pre-pass run before skinning):
`cur.worldTransform = gp_mm(motor, cur.transform ?? identity);
cur.changed = cur.changed | changed;` then recurse into the children with
the new world motor and flag.  The world motor is recomputed
unconditionally and the dirty flag is never cleared. -/
def xformNode (motor : Motor) (changed : Bool) : NTree → NTree
  | .node loc world _ ch children =>
    .node loc world (some (gp_mm motor loc)) (ch || changed)
      (xformList (gp_mm motor loc) (ch || changed) children)

/-- `xformNode` over a list of children. -/
def xformList (motor : Motor) (changed : Bool) : List NTree → List NTree
  | [] => []
  | t :: ts => xformNode motor changed t :: xformList motor changed ts

end

/-- C6 (counterexample): in the skeleton pre-pass `xform` — one of the two
cited code sites resolving node transforms — a dirty root node has its
world motor recomputed yet stays dirty, so a node does *not* transition
`dirty -> clean` exactly when its world motor is recomputed. -/
theorem xform_recomputes_without_clearing :
    NTree.changedOf (xformNode identityM false
        (.node identityM none none true [])) = true ∧
    NTree.worldTOf (xformNode identityM false
        (.node identityM none none true [])) =
      some (gp_mm identityM identityM) := by
  exact ⟨rfl, rfl⟩

/-- Indexing a processed child list is processing the indexed child. -/
theorem renderListT_getD (pw : Motor) (pc : Bool) (cs : List NTree) (i : Nat)
    (h : i < cs.length) :
    (renderListT pw pc cs).getD i default = renderNodeT pw pc (cs.getD i default) := by
  induction cs generalizing i with
  | nil => simp at h
  | cons c cs ih =>
    cases i with
    | zero => simp [renderListT]
    | succ n => simpa [renderListT] using ih n (by simpa using h)

/-- A node visited with `parentChanged = true` always gets its world motor
recomputed from the parent world and its own local motor. -/
theorem renderNodeT_world_of_pc_true (pw : Motor) (t : NTree) :
    NTree.worldOf (renderNodeT pw true t) = some (gp_mm pw (NTree.locOf t)) := by
  cases t
  simp [renderNodeT, NTree.worldOf, NTree.locOf]

/-- C6 (amended): in the render pass `renderNodeT` the spec's transition
rule holds: a node ends clean, its world motor is recomputed as
`gp_mm(parentWorld, localMotor)` exactly when it was dirty or its parent
was recomputed, and a recompute passes `parentChanged = true` to all direct
children so each of them is recomputed in turn regardless of its prior
flag.  (The skeleton pre-pass `xform` does not obey this rule: it
recomputes unconditionally and never clears the flag.) -/
theorem renderNodeT_transition (pw : Motor) (pc : Bool) (loc : Motor)
    (w wt : Option Motor) (ch : Bool) (cs : List NTree) :
    NTree.changedOf (renderNodeT pw pc (.node loc w wt ch cs)) = false ∧
    NTree.worldOf (renderNodeT pw pc (.node loc w wt ch cs)) =
      (if ch || pc then some (gp_mm pw loc) else w) ∧
    NTree.childrenOf (renderNodeT pw pc (.node loc w wt ch cs)) =
      (if ch || pc then renderListT (gp_mm pw loc) true cs
       else renderListT (w.getD identityM) pc cs) ∧
    ((ch || pc) = true → ∀ i, i < cs.length →
      NTree.worldOf
          ((NTree.childrenOf (renderNodeT pw pc (.node loc w wt ch cs))).getD i default) =
        some (gp_mm (gp_mm pw loc) (NTree.locOf (cs.getD i default)))) := by
  have hcs : ∀ h : (ch || pc) = true, ∀ i, i < cs.length →
      NTree.worldOf
          ((NTree.childrenOf (renderNodeT pw pc (.node loc w wt ch cs))).getD i default) =
        some (gp_mm (gp_mm pw loc) (NTree.locOf (cs.getD i default))) := by
    intro h i hi
    have hch : NTree.childrenOf (renderNodeT pw pc (.node loc w wt ch cs)) =
        renderListT (gp_mm pw loc) true cs := by
      cases pc <;> cases ch <;> simp_all [renderNodeT, NTree.childrenOf]
    rw [hch, renderListT_getD _ _ _ i hi, renderNodeT_world_of_pc_true]
  refine ⟨?_, ?_, ?_, hcs⟩ <;>
    cases pc <;> cases ch <;>
      simp [renderNodeT, NTree.changedOf, NTree.worldOf, NTree.childrenOf]

/-- Witness for C6 (amended): a dirty root over a clean child; the root is
recomputed and cleaned, and the clean child is recomputed anyway. -/
theorem renderNodeT_transition_witness :
    NTree.changedOf (renderNodeT identityM false
        (.node identityM none none true [NTree.node identityM none none false []])) = false ∧
    NTree.worldOf
        ((NTree.childrenOf (renderNodeT identityM false
            (.node identityM none none true
              [NTree.node identityM none none false []]))).getD 0 default) =
      some (gp_mm (gp_mm identityM identityM)
        (NTree.locOf ([NTree.node identityM none none false []].getD 0 default))) := by
  refine ⟨(renderNodeT_transition identityM false identityM none none true
    [NTree.node identityM none none false []]).1, ?_⟩
  exact (renderNodeT_transition identityM false identityM none none true
    [NTree.node identityM none none false []]).2.2.2 (by simp) 0 (by simp)

/-!
## Matrix-to-motor conversion (miniPGA.js `fromMatrix3` / `fromMatrix`)

Needed by the loader's and `setTime`'s matrix branches.
-/

/-- A row-major 3×3 matrix. -/
structure Mat3 where
  a00 : ℝ
  a01 : ℝ
  a02 : ℝ
  a10 : ℝ
  a11 : ℝ
  a12 : ℝ
  a20 : ℝ
  a21 : ℝ
  a22 : ℝ

/-- A row-major 4×4 matrix (glTF column-vector layout as the source reads it). -/
structure Mat4 where
  a00 : ℝ
  a01 : ℝ
  a02 : ℝ
  a03 : ℝ
  a10 : ℝ
  a11 : ℝ
  a12 : ℝ
  a13 : ℝ
  a20 : ℝ
  a21 : ℝ
  a22 : ℝ
  a23 : ℝ
  a30 : ℝ
  a31 : ℝ
  a32 : ℝ
  a33 : ℝ

/-- miniPGA.js `fromMatrix3`: rescale rows when any row norm deviates from 1
by more than `1e-4`, then convert via the four-branch largest-diagonal
selection, normalizing the result. -/
def fromMatrix3 (M : Mat3) : Motor :=
  let s0 := Real.sqrt (M.a00 ^ 2 + M.a01 ^ 2 + M.a02 ^ 2)
  let s1 := Real.sqrt (M.a10 ^ 2 + M.a11 ^ 2 + M.a12 ^ 2)
  let s2 := Real.sqrt (M.a20 ^ 2 + M.a21 ^ 2 + M.a22 ^ 2)
  let rescale := 0.0001 < |s0 - 1| ∨ 0.0001 < |s1 - 1| ∨ 0.0001 < |s2 - 1|
  let m00 := if rescale then M.a00 * (1 / s0) else M.a00
  let m01 := if rescale then M.a01 * (1 / s0) else M.a01
  let m02 := if rescale then M.a02 * (1 / s0) else M.a02
  let m10 := if rescale then M.a10 * (1 / s1) else M.a10
  let m11 := if rescale then M.a11 * (1 / s1) else M.a11
  let m12 := if rescale then M.a12 * (1 / s1) else M.a12
  let m20 := if rescale then M.a20 * (1 / s2) else M.a20
  let m21 := if rescale then M.a21 * (1 / s2) else M.a21
  let m22 := if rescale then M.a22 * (1 / s2) else M.a22
  if 0 < m00 + m11 + m22 then
    normalize_m ⟨m00 + m11 + m22 + 1, m21 - m12, m02 - m20, m10 - m01, 0, 0, 0, 0⟩
  else if m11 < m00 ∧ m22 < m00 then
    normalize_m ⟨m21 - m12, 1 + m00 - m11 - m22, m01 + m10, m02 + m20, 0, 0, 0, 0⟩
  else if m22 < m11 then
    normalize_m ⟨m02 - m20, m01 + m10, 1 + m11 - m00 - m22, m12 + m21, 0, 0, 0, 0⟩
  else
    normalize_m ⟨m10 - m01, m02 + m20, m12 + m21, 1 + m22 - m00 - m11, 0, 0, 0, 0⟩

/-- miniPGA.js `fromMatrix`: translation-times-rotation,
`gp_mm([1,0,0,0,-m30/2,-m31/2,-m32/2,0], fromMatrix3(upper 3×3))`. -/
def fromMatrix (M : Mat4) : Motor :=
  gp_mm ⟨1, 0, 0, 0, -0.5 * M.a30, -0.5 * M.a31, -0.5 * M.a32, 0⟩
    (fromMatrix3 ⟨M.a00, M.a01, M.a02, M.a10, M.a11, M.a12, M.a20, M.a21, M.a22⟩)

/-!
## C7 — keyframe search of the animation sampler

miniGLTF.js `setTime`:
`for (var frame = time >= sampler.curTime ? sampler.curFrame : 0;
      sib[ofsi + frame] <= time && frame < si.count - 1; ++frame);`
-/

/-- The keyframe search loop body: advance from `frame` while
`keyTime[frame] <= t` and `frame < count - 1`. -/
def findFrameAux (keys : List ℝ) (t : ℝ) (frame : Nat) : Nat :=
  if h : keys.getD frame 0 ≤ t ∧ frame < keys.length - 1 then
    findFrameAux keys t (frame + 1)
  else frame
termination_by keys.length - 1 - frame
decreasing_by omega

/-- The full keyframe search: start from the cached `curFrame` when
`time >= curTime` (an absent cache compares false in JS), else from 0. -/
def keySearch (keys : List ℝ) (curTime : Option ℝ) (curFrame : Nat) (t : ℝ) : Nat :=
  findFrameAux keys t
    (match curTime with
     | none => 0
     | some ct => if ct ≤ t then curFrame else 0)

/-- The claim's property, stated from the spec's words: `f` is the smallest
frame index with `keyTime[f] >= t`. -/
def IsSmallestGe (keys : List ℝ) (t : ℝ) (f : Nat) : Prop :=
  t ≤ keys.getD f 0 ∧ ∀ j, j < f → ¬ t ≤ keys.getD j 0

/-- C7 (counterexample): with keys `[0,1,2]`, cache `(curTime, curFrame) =
(0, 0)` and `t = 1`, the search returns frame 2, not the smallest index 1
with `keyTime[f] >= t` — the loop keeps going while `keyTime[frame] <= t`. -/
theorem keySearch_not_smallest_ge :
    keySearch [0, 1, 2] (some 0) 0 1 = 2 ∧
    ¬ IsSmallestGe [0, 1, 2] 1 (keySearch [0, 1, 2] (some 0) 0 1) := by
  have e2 : findFrameAux [(0:ℝ), 1, 2] 1 2 = 2 := by
    rw [findFrameAux]
    rw [dif_neg]
    simp [List.getD]
  have e1 : findFrameAux [(0:ℝ), 1, 2] 1 1 = 2 := by
    rw [findFrameAux]
    rw [dif_pos (by norm_num [List.getD])]
    exact e2
  have e0 : findFrameAux [(0:ℝ), 1, 2] 1 0 = 2 := by
    rw [findFrameAux]
    rw [dif_pos (by norm_num [List.getD])]
    exact e1
  have hks : keySearch [(0:ℝ), 1, 2] (some 0) 0 1 = 2 := by
    rw [keySearch]
    rw [if_pos (by norm_num)]
    exact e0
  refine ⟨hks, ?_⟩
  rw [hks, IsSmallestGe]
  intro hcon
  exact absurd (hcon.2 1 (by norm_num)) (by norm_num [List.getD])

/-- Loop invariant of the keyframe search: starting in range, it returns
the first index `f ≥ start` whose key is strictly greater than `t`, or the
clamp `count - 1` when no such index exists; earlier indices all have keys
`≤ t`. -/
theorem findFrameAux_spec (keys : List ℝ) (t : ℝ) :
    ∀ d start, keys.length - 1 - start = d → start ≤ keys.length - 1 →
      start ≤ findFrameAux keys t start ∧
      findFrameAux keys t start ≤ keys.length - 1 ∧
      (∀ j, start ≤ j → j < findFrameAux keys t start → keys.getD j 0 ≤ t) ∧
      (t < keys.getD (findFrameAux keys t start) 0 ∨
        findFrameAux keys t start = keys.length - 1) := by
  intro d
  induction d with
  | zero =>
    intro start hd hle
    have hs : start = keys.length - 1 := by omega
    rw [findFrameAux, dif_neg (by omega)]
    exact ⟨le_refl _, hle, fun j h1 h2 => absurd h2 (by omega), Or.inr hs⟩
  | succ d ih =>
    intro start hd hle
    have hlt : start < keys.length - 1 := by omega
    by_cases hkey : keys.getD start 0 ≤ t
    · rw [findFrameAux, dif_pos ⟨hkey, hlt⟩]
      obtain ⟨ha, hb, hc, hdisj⟩ := ih (start + 1) (by omega) (by omega)
      refine ⟨by omega, hb, ?_, hdisj⟩
      intro j h1 h2
      rcases Nat.eq_or_lt_of_le h1 with rfl | h1'
      · exact hkey
      · exact hc j h1' h2
    · rw [findFrameAux, dif_neg (by tauto)]
      exact ⟨le_refl _, hle, fun j h1 h2 => absurd h2 (by omega),
        Or.inl (lt_of_not_le hkey)⟩

/-- C7 (amended): given a valid cache — `curFrame` in range and every key
before `curFrame` at most `curTime` — the search returns an index `f` such
that all keys before `f` are `≤ t` and either `keyTime[f] > t` (strictly)
or `f` is the clamp `count - 1`; i.e. it returns the smallest index with
`keyTime[f] > t`, clamped to the last frame, searching forward from
`curFrame` when `t ≥ curTime` and from 0 otherwise. -/
theorem keySearch_spec (keys : List ℝ) (ct : ℝ) (cf : Nat) (t : ℝ)
    (hcf : cf ≤ keys.length - 1)
    (hcache : ∀ j, j < cf → keys.getD j 0 ≤ ct) :
    (∀ j, j < keySearch keys (some ct) cf t → keys.getD j 0 ≤ t) ∧
    (t < keys.getD (keySearch keys (some ct) cf t) 0 ∨
      keySearch keys (some ct) cf t = keys.length - 1) := by
  rw [keySearch]
  by_cases hct : ct ≤ t
  · rw [if_pos hct]
    obtain ⟨ha, hb, hc, hdisj⟩ := findFrameAux_spec keys t _ cf rfl hcf
    refine ⟨?_, hdisj⟩
    intro j hj
    by_cases hjcf : j < cf
    · exact le_trans (hcache j hjcf) hct
    · exact hc j (by omega) hj
  · rw [if_neg hct]
    obtain ⟨ha, hb, hc, hdisj⟩ := findFrameAux_spec keys t _ 0 rfl (by omega)
    exact ⟨fun j hj => hc j (by omega) hj, hdisj⟩

/-- Witness for C7 (amended): keys `[0,1,2]`, valid cache `(1, 1)`, `t = 3/2`. -/
theorem keySearch_spec_witness :
    ((1:Nat) ≤ [(0:ℝ), 1, 2].length - 1 ∧
      (∀ j, j < 1 → [(0:ℝ), 1, 2].getD j 0 ≤ 1)) ∧
    ((∀ j, j < keySearch [(0:ℝ), 1, 2] (some 1) 1 (3/2) →
        [(0:ℝ), 1, 2].getD j 0 ≤ 3/2) ∧
      ((3/2:ℝ) < [(0:ℝ), 1, 2].getD (keySearch [(0:ℝ), 1, 2] (some 1) 1 (3/2)) 0 ∨
        keySearch [(0:ℝ), 1, 2] (some 1) 1 (3/2) = [(0:ℝ), 1, 2].length - 1)) := by
  have hcache : ∀ j, j < 1 → [(0:ℝ), 1, 2].getD j 0 ≤ 1 := by
    intro j hj
    interval_cases j
    norm_num [List.getD]
  exact ⟨⟨by norm_num, hcache⟩, keySearch_spec [0, 1, 2] 1 1 (3/2) (by norm_num) hcache⟩

/-!
## Animation channels and node-local state (miniGLTF.js `setTime`)
-/

/-- A glTF animation channel target path. -/
inductive TPath where
  | translation
  | rotation
  | other

/-- An animation channel with its sampler: target node index, path, the
key-time and key-value buffers, and the sampler's cursor cache
(`curFrame` starts at 0, `curTime` is absent before the first call). -/
structure Channel where
  targetNode : Nat
  path : TPath
  times : List ℝ
  values : List ℝ
  curFrame : Nat
  curTime : Option ℝ

/-- A node's animation-facing state: raw `rotation` quaternion `[x,y,z,w]`,
raw `translation`, optional `matrix`, the `changed` dirty flag, the local
`transform` motor, and the parent's `worldScale` (`[1,1,1]` at the root),
which the scale patch reads through the parent back-reference. -/
structure AnimNode where
  rotation : Option V4
  translation : Option V3
  matrix : Option Mat4
  changed : Bool
  transform : Motor
  parentScale : V3

instance : Inhabited AnimNode := ⟨⟨none, none, none, false, identityM, ⟨1, 1, 1⟩⟩⟩

/-- `bv.slice(i, i+3)` on a flat value buffer. -/
def vec3At (l : List ℝ) (i : Nat) : V3 :=
  ⟨l.getD i 0, l.getD (i + 1) 0, l.getD (i + 2) 0⟩

/-- `bv.slice(i, i+4)` on a flat value buffer. -/
def vec4At (l : List ℝ) (i : Nat) : V4 :=
  ⟨l.getD i 0, l.getD (i + 1) 0, l.getD (i + 2) 0, l.getD (i + 3) 0⟩

/-- The node update performed by one channel evaluation at the found
`frame` with clamped subframe fraction `t` (miniGLTF.js `setTime`, channel
loop body): always set `changed = true`; write the interpolated value into
`translation` or `rotation` with the `t = 1` / `t = 0` exact-key
short-circuits, the shortest-arc sign flip and renormalization for
rotations. -/
def updNode (ch : Channel) (frame : Nat) (t : ℝ) (n0 : AnimNode) : AnimNode :=
  let n1 := { n0 with changed := true }
  match ch.path with
  | .translation =>
    let ofsB := 3 * frame
    let ofsA := ofsB - 3
    { n1 with translation := some (
        if t = 1 then vec3At ch.values ofsB
        else if t = 0 then vec3At ch.values ofsA
        else ⟨ch.values.getD ofsA 0 * (1 - t) + t * ch.values.getD ofsB 0,
              ch.values.getD (ofsA + 1) 0 * (1 - t) + t * ch.values.getD (ofsB + 1) 0,
              ch.values.getD (ofsA + 2) 0 * (1 - t) + t * ch.values.getD (ofsB + 2) 0⟩) }
  | .rotation =>
    let ofsB := 4 * frame
    let ofsA := ofsB - 4
    if t = 1 then { n1 with rotation := some (vec4At ch.values ofsB) }
    else if t = 0 then { n1 with rotation := some (vec4At ch.values ofsA) }
    else
      let rotF : V4 :=
        if ch.values.getD ofsA 0 * ch.values.getD ofsB 0 +
            ch.values.getD (ofsA + 1) 0 * ch.values.getD (ofsB + 1) 0 +
            ch.values.getD (ofsA + 2) 0 * ch.values.getD (ofsB + 2) 0 +
            ch.values.getD (ofsA + 3) 0 * ch.values.getD (ofsB + 3) 0 < 0 then
          ⟨ch.values.getD ofsA 0 * (1 - t) - t * ch.values.getD ofsB 0,
           ch.values.getD (ofsA + 1) 0 * (1 - t) - t * ch.values.getD (ofsB + 1) 0,
           ch.values.getD (ofsA + 2) 0 * (1 - t) - t * ch.values.getD (ofsB + 2) 0,
           ch.values.getD (ofsA + 3) 0 * (1 - t) - t * ch.values.getD (ofsB + 3) 0⟩
        else
          ⟨ch.values.getD ofsA 0 * (1 - t) + t * ch.values.getD ofsB 0,
           ch.values.getD (ofsA + 1) 0 * (1 - t) + t * ch.values.getD (ofsB + 1) 0,
           ch.values.getD (ofsA + 2) 0 * (1 - t) + t * ch.values.getD (ofsB + 2) 0,
           ch.values.getD (ofsA + 3) 0 * (1 - t) + t * ch.values.getD (ofsB + 3) 0⟩
      let len := (Real.sqrt (rotF.x ^ 2 + rotF.y ^ 2 + rotF.z ^ 2 + rotF.w ^ 2))⁻¹
      { n1 with rotation := some ⟨rotF.x * len, rotF.y * len, rotF.z * len, rotF.w * len⟩ }
  | .other => n1

/-- One channel evaluation (miniGLTF.js `setTime`, single-track call):
keyframe search from the sampler cache, subframe fraction
`t = frame == 0 ? 1 : …` clamped to `[0,1]`, cursor update, then the
target-node update. -/
def applyChannel (time : ℝ) (ch : Channel) (nodes : List AnimNode) :
    Channel × List AnimNode :=
  let frame := keySearch ch.times ch.curTime ch.curFrame time
  let t0 : ℝ :=
    if frame = 0 then 1
    else (time - ch.times.getD (frame - 1) 0) /
      (ch.times.getD frame 0 - ch.times.getD (frame - 1) 0)
  let t := min 1 (max 0 t0)
  ({ ch with curFrame := frame, curTime := some time },
   nodes.set ch.targetNode (updNode ch frame t (nodes.getD ch.targetNode default)))

/-- The channel loop: evaluate the channels in order, threading the node
list and collecting the updated samplers. -/
def runChannels (time : ℝ) : List Channel → List AnimNode →
    List Channel × List AnimNode
  | [], nodes => ([], nodes)
  | c :: cs, nodes =>
    let r1 := applyChannel time c nodes
    let r2 := runChannels time cs r1.2
    (r1.1 :: r2.1, r2.2)

/-!
## Local-transform construction: load path and `setTime` rebuild path
-/

/-- The translator motor built from a raw translation:
`[1,0,0,0,-t.x/2,-t.y/2,-t.z/2,0]` (both the loader and `setTime`). -/
def translator (v : V3) : Motor :=
  ⟨1, 0, 0, 0, -v.x / 2, -v.y / 2, -v.z / 2, 0⟩

/-- The rotor rebuilt from a raw glTF quaternion in `setTime`:
`normalize([q[3], -q[0], -q[1], -q[2], 0,0,0,0])`. -/
def rotorOfQuat (q : V4) : Motor :=
  normalize_m ⟨q.w, -q.x, -q.y, -q.z, 0, 0, 0, 0⟩

/-- The scale patch of the `setTime` rebuild (miniGLTF.js lines 404-405):
`tf[4] *= s[0]; tf[5] *= s[1]; tf[6] *= s[2]; tf[7] *= s[2];`. -/
def rebuildScalePatch (s : V3) (m : Motor) : Motor :=
  ⟨m.m0, m.m1, m.m2, m.m3, m.m4 * s.x, m.m5 * s.y, m.m6 * s.z, m.m7 * s.z⟩

/-- The load-time scale patch (miniGLTF.js load, step 3):
`transform[4] *= pscale[0]; [5] *= pscale[1]; [6] *= pscale[2];
[7] *= pscale[2];`. -/
def loadScalePatch (s : V3) (m : Motor) : Motor :=
  ⟨m.m0, m.m1, m.m2, m.m3, m.m4 * s.x, m.m5 * s.y, m.m6 * s.z, m.m7 * s.z⟩

/-- The `setTime` rebuild of a node's local transform (before the scale
patch): start from identity; a matrix replaces it via `fromMatrix`; a raw
rotation *replaces* it with `normalize([q3,-q0,-q1,-q2,0…])`; a raw
translation left-multiplies the translator. -/
def rebuildLocalTransform (mx : Option Mat4) (rot : Option V4) (tr : Option V3) :
    Motor :=
  let t0 := identityM
  let t1 := match mx with
    | some M => fromMatrix M
    | none => t0
  let t2 := match rot with
    | some q => rotorOfQuat q
    | none => t1
  match tr with
  | some v => gp_mm (translator v) t2
  | none => t2

/-- The load-time local-transform construction (miniGLTF.js load): a matrix
takes the `fromMatrix` branch; *else* a raw rotation is composed onto the
identity with `gp_mm` (no normalization) and a raw translation
left-multiplies the translator. -/
def loadLocalTransform (mx : Option Mat4) (rot : Option V4) (tr : Option V3) :
    Motor :=
  match mx with
  | some M => fromMatrix M
  | none =>
    let t1 := match rot with
      | some q => gp_mm ⟨q.w, -q.x, -q.y, -q.z, 0, 0, 0, 0⟩ identityM
      | none => identityM
    match tr with
    | some v => gp_mm (translator v) t1
    | none => t1

/-- The rebuild loop body (miniGLTF.js lines 392-406): skip clean nodes;
rebuild the local transform of changed nodes and apply the scale patch with
the parent's world scale. -/
def rebuildNode (n : AnimNode) : AnimNode :=
  if n.changed = false then n
  else { n with
          transform := rebuildScalePatch n.parentScale
            (rebuildLocalTransform n.matrix n.rotation n.translation) }

/-- The rebuild loop over all nodes. -/
def rebuildPass (ns : List AnimNode) : List AnimNode := ns.map rebuildNode

/-- An animation: its ordered channel list. -/
structure Animation where
  channels : List Channel

instance : Inhabited Animation := ⟨⟨[]⟩⟩

/-- The loaded scene as `setTime` sees it: nodes and animations. -/
structure Scene where
  nodes : List AnimNode
  animations : List Animation

/-- `anim = min(anim, animations.length - 1)` (miniGLTF.js `setTime`). -/
def clampAnim (anim len : Nat) : Nat := min anim (len - 1)

/-- miniGLTF.js `setTime` (single-track call): bail out unchanged when the
animation list is absent/empty; clamp the animation index; evaluate every
channel of the selected animation in order; then rebuild the local motor of
every changed node. -/
def setTime (s : Scene) (time : ℝ) (anim : Nat) : Scene :=
  if s.animations.length = 0 then s
  else
    let a := clampAnim anim s.animations.length
    let res := runChannels time (s.animations.getD a default).channels s.nodes
    { nodes := rebuildPass res.2,
      animations := s.animations.set a ⟨res.1⟩ }

/-- The node list after the channel phase of `setTime`. -/
def channelPhase (s : Scene) (time : ℝ) (anim : Nat) : List AnimNode :=
  (runChannels time
    (s.animations.getD (clampAnim anim s.animations.length) default).channels
    s.nodes).2

/-!
## C10 — `setTime` guard and animation-index clamp
-/

/-- C10: with no animations, `setTime` returns the scene unchanged (all
node rotation/translation/transform/changed state untouched); with a
nonempty animation list, the selected index `min(anim, length-1)` is always
in range, so an out-of-range `anim` is clamped instead of overrunning. -/
theorem setTime_guard_and_clamp (s : Scene) (time : ℝ) (anim : Nat) :
    (s.animations = [] → setTime s time anim = s) ∧
    (s.animations ≠ [] →
      clampAnim anim s.animations.length < s.animations.length) := by
  constructor
  · intro h
    rw [setTime, if_pos (by simp [h])]
  · intro h
    have hpos : 0 < s.animations.length := List.length_pos.mpr h
    have hmin : clampAnim anim s.animations.length ≤ s.animations.length - 1 :=
      min_le_right _ _
    omega

/-- Witness for C10: an empty scene passes through unchanged; index 7 into
a 3-animation list is clamped in range. -/
theorem setTime_guard_and_clamp_witness :
    setTime (Scene.mk [] []) 0 5 = Scene.mk [] [] ∧
    clampAnim 7 (Scene.mk []
        [Animation.mk [], Animation.mk [], Animation.mk []]).animations.length <
      (Scene.mk []
        [Animation.mk [], Animation.mk [], Animation.mk []]).animations.length :=
  ⟨(setTime_guard_and_clamp (Scene.mk [] []) 0 5).1 rfl,
   (setTime_guard_and_clamp
     (Scene.mk [] [Animation.mk [], Animation.mk [], Animation.mk []]) 0 7).2
     (by simp)⟩

/-!
## C9 — scale patch at load time vs. `setTime` rebuild

The two patches are the same map (components 4,5,6 scaled by the parent
world scale x,y,z, component 7 by z in both).  But the rebuild is *not*
always value-identical to the load construction: the load path composes the
raw quaternion rotor with `gp_mm` while the rebuild path passes it through
`normalize`, so a non-unit quaternion rebuilds to a different transform.
-/

/-- C9 (counterexample): for the non-unit raw rotation `[0,0,0,2]` (and no
matrix/translation, parent scale `[1,1,1]`), the `setTime` rebuild of the
transform differs from the load-time transform: the rebuild normalizes
`[2,0,0,0,…]` to `[1,0,0,0,…]` while the loader keeps `[2,0,0,0,…]`. -/
theorem rebuild_differs_from_load_nonunit :
    rebuildScalePatch ⟨1, 1, 1⟩
        (rebuildLocalTransform none (some ⟨0, 0, 0, 2⟩) none) ≠
      loadScalePatch ⟨1, 1, 1⟩
        (loadLocalTransform none (some ⟨0, 0, 0, 2⟩) none) := by
  intro h
  have h0 := congrArg Motor.m0 h
  have hs : Real.sqrt ((2:ℝ) ^ 2 + (-(0:ℝ)) ^ 2 + (-(0:ℝ)) ^ 2 + (-(0:ℝ)) ^ 2) = 2 := by
    rw [show (2:ℝ) ^ 2 + (-(0:ℝ)) ^ 2 + (-(0:ℝ)) ^ 2 + (-(0:ℝ)) ^ 2 = 2 ^ 2 by norm_num,
      Real.sqrt_sq (by norm_num)]
  simp only [rebuildScalePatch, loadScalePatch, rebuildLocalTransform,
    loadLocalTransform, rotorOfQuat, normalize_m, gp_mm, identityM, hs] at h0
  norm_num at h0

/-- C9 (amended): the two scale patches are the same map; and for a node
with no matrix whose raw rotation, if any, is a unit quaternion (as glTF
guarantees), rebuilding from the unchanged raw rotation/translation
reproduces the load-time transform exactly. -/
theorem rebuild_matches_load (mx : Option Mat4) (rot : Option V4)
    (tr : Option V3) (sc : V3)
    (hmx : mx = none)
    (hrot : ∀ q, rot = some q → q.x ^ 2 + q.y ^ 2 + q.z ^ 2 + q.w ^ 2 = 1) :
    (∀ m, rebuildScalePatch sc m = loadScalePatch sc m) ∧
    rebuildScalePatch sc (rebuildLocalTransform mx rot tr) =
      loadScalePatch sc (loadLocalTransform mx rot tr) := by
  subst hmx
  refine ⟨fun m => rfl, ?_⟩
  have hcore : rebuildLocalTransform none rot tr = loadLocalTransform none rot tr := by
    cases rot with
    | none => cases tr <;> rfl
    | some q =>
      have hq := hrot q rfl
      have hs : Real.sqrt (q.w ^ 2 + q.x ^ 2 + q.y ^ 2 + q.z ^ 2) = 1 := by
        rw [show q.w ^ 2 + q.x ^ 2 + q.y ^ 2 + q.z ^ 2 =
          q.x ^ 2 + q.y ^ 2 + q.z ^ 2 + q.w ^ 2 by ring, hq, Real.sqrt_one]
      have hnorm : rotorOfQuat q = gp_mm ⟨q.w, -q.x, -q.y, -q.z, 0, 0, 0, 0⟩ identityM := by
        rw [rotorOfQuat, motor_eq_iff]
        norm_num [normalize_m, gp_mm, identityM, hs]
      cases tr <;> simp [rebuildLocalTransform, loadLocalTransform, hnorm]
  rw [hcore]
  rfl

/-- Witness for C9 (amended) at the unit quaternion `[0,0,0,1]`,
translation `(1,2,3)` and parent scale `(2,1,1)`. -/
theorem rebuild_matches_load_witness :
    ((none : Option Mat4) = none ∧
      (∀ q : V4, (some (V4.mk 0 0 0 1) : Option V4) = some q →
        q.x ^ 2 + q.y ^ 2 + q.z ^ 2 + q.w ^ 2 = 1)) ∧
    ((∀ m, rebuildScalePatch ⟨2, 1, 1⟩ m = loadScalePatch ⟨2, 1, 1⟩ m) ∧
      rebuildScalePatch ⟨2, 1, 1⟩
          (rebuildLocalTransform none (some ⟨0, 0, 0, 1⟩) (some ⟨1, 2, 3⟩)) =
        loadScalePatch ⟨2, 1, 1⟩
          (loadLocalTransform none (some ⟨0, 0, 0, 1⟩) (some ⟨1, 2, 3⟩))) := by
  have hq : ∀ q : V4, (some (V4.mk 0 0 0 1) : Option V4) = some q →
      q.x ^ 2 + q.y ^ 2 + q.z ^ 2 + q.w ^ 2 = 1 := by
    intro q hqe
    cases Option.some.inj hqe
    norm_num
  exact ⟨⟨rfl, hq⟩,
    rebuild_matches_load none (some ⟨0, 0, 0, 1⟩) (some ⟨1, 2, 3⟩) ⟨2, 1, 1⟩ rfl hq⟩

/-!
## C8 — `setTime` marks animated nodes dirty and rebuilds their motors
-/

/-- Reading back the written slot of `List.set`. -/
theorem getD_set_self {α : Type} (l : List α) (k : Nat) (x d : α)
    (h : k < l.length) : (l.set k x).getD k d = x := by
  rw [List.getD_eq_getElem?_getD, List.getElem?_set_eq_of_lt x h]
  rfl

/-- `List.set` leaves other slots unchanged. -/
theorem getD_set_ne {α : Type} (l : List α) (i k : Nat) (x d : α)
    (h : i ≠ k) : (l.set i x).getD k d = l.getD k d := by
  rw [List.getD_eq_getElem?_getD, List.getD_eq_getElem?_getD,
    List.getElem?_set_ne h]

/-- Every branch of the channel node update sets `changed = true`
(miniGLTF.js `setTime`, `target.node.changed = true`). -/
theorem updNode_changed (ch : Channel) (frame : Nat) (t : ℝ) (n : AnimNode) :
    (updNode ch frame t n).changed = true := by
  cases hp : ch.path <;> simp [updNode, hp] <;> split_ifs <;> simp

/-- A channel evaluation does not change the node count. -/
theorem applyChannel_snd_length (time : ℝ) (ch : Channel) (ns : List AnimNode) :
    ((applyChannel time ch ns).2).length = ns.length := by
  simp [applyChannel]

/-- A channel evaluation sets its target's `changed` flag, and never clears
an already-set flag of any node. -/
theorem applyChannel_changed (time : ℝ) (c : Channel) (ns : List AnimNode)
    (k : Nat) (hk : k < ns.length) :
    (c.targetNode = k →
      (((applyChannel time c ns).2).getD k default).changed = true) ∧
    ((ns.getD k default).changed = true →
      (((applyChannel time c ns).2).getD k default).changed = true) := by
  constructor
  · intro h
    subst h
    simp only [applyChannel]
    rw [getD_set_self _ _ _ _ hk]
    exact updNode_changed _ _ _ _
  · intro h
    by_cases he : c.targetNode = k
    · subst he
      simp only [applyChannel]
      rw [getD_set_self _ _ _ _ hk]
      exact updNode_changed _ _ _ _
    · simp only [applyChannel]
      rw [getD_set_ne _ _ _ _ _ he]
      exact h

/-- The channel loop preserves the node count. -/
theorem runChannels_snd_length (time : ℝ) (cs : List Channel)
    (ns : List AnimNode) : ((runChannels time cs ns).2).length = ns.length := by
  induction cs generalizing ns with
  | nil => rfl
  | cons c cs ih =>
    simp only [runChannels]
    rw [ih, applyChannel_snd_length]

/-- After the channel loop, a node is flagged `changed` if some channel in
the list targets it or it was already flagged. -/
theorem runChannels_changed (time : ℝ) (cs : List Channel) (ns : List AnimNode)
    (k : Nat) (hk : k < ns.length)
    (h : (∃ c ∈ cs, c.targetNode = k) ∨ (ns.getD k default).changed = true) :
    (((runChannels time cs ns).2).getD k default).changed = true := by
  induction cs generalizing ns with
  | nil =>
    rcases h with ⟨c, hc, _⟩ | h
    · simp at hc
    · simpa [runChannels] using h
  | cons c cs ih =>
    have hk' : k < ((applyChannel time c ns).2).length := by
      rw [applyChannel_snd_length]; exact hk
    have hnext : (∃ c' ∈ cs, c'.targetNode = k) ∨
        (((applyChannel time c ns).2).getD k default).changed = true := by
      rcases h with ⟨c', hc', ht⟩ | hch
      · rcases List.mem_cons.mp hc' with rfl | hmem
        · exact Or.inr ((applyChannel_changed time c' ns k hk).1 ht)
        · exact Or.inl ⟨c', hmem, ht⟩
      · exact Or.inr ((applyChannel_changed time c ns k hk).2 hch)
    simpa [runChannels] using ih _ hk' hnext

/-- The rebuild pass is positionwise `rebuildNode`. -/
theorem rebuildPass_getD (ns : List AnimNode) (k : Nat) (hk : k < ns.length) :
    (rebuildPass ns).getD k default = rebuildNode (ns.getD k default) := by
  induction ns generalizing k with
  | nil => simp at hk
  | cons n ns ih =>
    cases k with
    | zero => rfl
    | succ m => simpa [rebuildPass] using ih m (by simpa using hk)

/-- The rebuild of a changed node with raw rotation and translation (and no
matrix): the flag stays set and the transform is the scale-patched
composition of the translator and the rotor. -/
theorem rebuildNode_spec (n : AnimNode) (q : V4) (tr : V3)
    (hch : n.changed = true) (hmx : n.matrix = none)
    (hrot : n.rotation = some q) (htr : n.translation = some tr) :
    (rebuildNode n).changed = true ∧
    (rebuildNode n).transform =
      rebuildScalePatch n.parentScale (gp_mm (translator tr) (rotorOfQuat q)) := by
  rw [rebuildNode, if_neg (by simp [hch])]
  exact ⟨hch, by simp [rebuildLocalTransform, hmx, hrot, htr]⟩

/-- For any motor with zero ideal part and unit rotational norm, composing
the translator after it moves the origin to the raw translation: the rotor
fixes the origin, the translator then translates. -/
theorem sw_mo_translator_generic (tr : V3) (r : Motor)
    (h4 : r.m4 = 0) (h5 : r.m5 = 0) (h6 : r.m6 = 0) (h7 : r.m7 = 0)
    (hn : r.m0 ^ 2 + r.m1 ^ 2 + r.m2 ^ 2 + r.m3 ^ 2 = 1) :
    sw_mo (gp_mm (translator tr) r) = tr := by
  rw [v3_eq_iff]
  simp only [sw_mo, gp_mm, translator, h4, h5, h6, h7]
  refine ⟨?_, ?_, ?_⟩
  · linear_combination tr.x * hn
  · linear_combination tr.y * hn
  · linear_combination tr.z * hn

/-- The rebuilt rotor has zero ideal part (it is a pure rotation). -/
theorem rotorOfQuat_ideal (q : V4) :
    (rotorOfQuat q).m4 = 0 ∧ (rotorOfQuat q).m5 = 0 ∧
    (rotorOfQuat q).m6 = 0 ∧ (rotorOfQuat q).m7 = 0 := by
  refine ⟨?_, ?_, ?_, ?_⟩ <;> simp [rotorOfQuat, normalize_m] <;> ring

/-- For a nonzero raw quaternion the rebuilt rotor has unit rotational
norm. -/
theorem rotorOfQuat_rotnorm (q : V4)
    (hq : q.x ^ 2 + q.y ^ 2 + q.z ^ 2 + q.w ^ 2 ≠ 0) :
    (rotorOfQuat q).m0 ^ 2 + (rotorOfQuat q).m1 ^ 2 +
      (rotorOfQuat q).m2 ^ 2 + (rotorOfQuat q).m3 ^ 2 = 1 := by
  have hQ : (0:ℝ) < q.w ^ 2 + (-q.x) ^ 2 + (-q.y) ^ 2 + (-q.z) ^ 2 := by
    have h0 : q.w ^ 2 + (-q.x) ^ 2 + (-q.y) ^ 2 + (-q.z) ^ 2 =
        q.x ^ 2 + q.y ^ 2 + q.z ^ 2 + q.w ^ 2 := by ring
    rw [h0]
    exact lt_of_le_of_ne (by positivity) (Ne.symm hq)
  have hr2 : Real.sqrt (q.w ^ 2 + (-q.x) ^ 2 + (-q.y) ^ 2 + (-q.z) ^ 2) ^ 2 =
      q.w ^ 2 + (-q.x) ^ 2 + (-q.y) ^ 2 + (-q.z) ^ 2 := Real.sq_sqrt hQ.le
  have hr0 : Real.sqrt (q.w ^ 2 + (-q.x) ^ 2 + (-q.y) ^ 2 + (-q.z) ^ 2) ≠ 0 :=
    (Real.sqrt_pos.mpr hQ).ne'
  have hQs : q.w ^ 2 + q.x ^ 2 + q.y ^ 2 + q.z ^ 2 ≠ 0 := by
    intro hc
    exact hq (by linear_combination hc)
  simp only [rotorOfQuat, normalize_m]
  field_simp [hQs]

/-- Composing the translator after a quaternion rotor moves the origin to
the raw translation — the rebuild's `gp_mm(translator, rotor)` applies the
rotation first and the translation second. -/
theorem sw_mo_translator_rotor (tr : V3) (q : V4)
    (hq : q.x ^ 2 + q.y ^ 2 + q.z ^ 2 + q.w ^ 2 ≠ 0) :
    sw_mo (gp_mm (translator tr) (rotorOfQuat q)) = tr := by
  obtain ⟨h4, h5, h6, h7⟩ := rotorOfQuat_ideal q
  exact sw_mo_translator_generic tr _ h4 h5 h6 h7 (rotorOfQuat_rotnorm q hq)

/-- C8: after all channels of a frame are evaluated by `setTime`, every
node targeted by a channel of the selected animation is marked dirty
(`changed = true`), and — its post-channel state holding a raw rotation and
translation and no matrix — its local motor is rebuilt as the
scale-patched composition `gp_mm(translator, rotor)` of a pure-translation
motor and a pure-rotation motor, in rotation-then-translation order: the
rotor has zero ideal part, the translator has identity rotational part, and
their composition moves the origin to the raw translation. -/
theorem setTime_marks_and_rebuilds (s : Scene) (time : ℝ) (anim : Nat)
    (k : Nat) (q : V4) (tr : V3)
    (hne : ¬ s.animations.length = 0)
    (hk : k < s.nodes.length)
    (htar : ∃ c ∈ (s.animations.getD (clampAnim anim s.animations.length)
      default).channels, c.targetNode = k)
    (hrot : ((channelPhase s time anim).getD k default).rotation = some q)
    (htr : ((channelPhase s time anim).getD k default).translation = some tr)
    (hmx : ((channelPhase s time anim).getD k default).matrix = none)
    (hq : q.x ^ 2 + q.y ^ 2 + q.z ^ 2 + q.w ^ 2 ≠ 0) :
    ((setTime s time anim).nodes.getD k default).changed = true ∧
    ((setTime s time anim).nodes.getD k default).transform =
      rebuildScalePatch ((channelPhase s time anim).getD k default).parentScale
        (gp_mm (translator tr) (rotorOfQuat q)) ∧
    ((rotorOfQuat q).m4 = 0 ∧ (rotorOfQuat q).m5 = 0 ∧
      (rotorOfQuat q).m6 = 0 ∧ (rotorOfQuat q).m7 = 0) ∧
    ((translator tr).m0 = 1 ∧ (translator tr).m1 = 0 ∧
      (translator tr).m2 = 0 ∧ (translator tr).m3 = 0 ∧
      (translator tr).m7 = 0) ∧
    sw_mo (gp_mm (translator tr) (rotorOfQuat q)) = tr := by
  have hnodes : (setTime s time anim).nodes =
      rebuildPass (channelPhase s time anim) := by
    rw [setTime, if_neg hne]
    rfl
  have hklen : k < (channelPhase s time anim).length := by
    rw [channelPhase, runChannels_snd_length]; exact hk
  have hch : ((channelPhase s time anim).getD k default).changed = true := by
    rw [channelPhase]
    exact runChannels_changed time _ s.nodes k hk (Or.inl htar)
  have hrb := rebuildNode_spec _ q tr hch hmx hrot htr
  rw [hnodes, rebuildPass_getD _ k hklen]
  exact ⟨hrb.1, hrb.2, rotorOfQuat_ideal q, ⟨rfl, rfl, rfl, rfl, rfl⟩,
    sw_mo_translator_rotor tr q hq⟩

/-- A one-node node state for exercising `setTime`. -/
def demoNode : AnimNode :=
  ⟨some ⟨0, 0, 0, 1⟩, some ⟨0, 0, 0⟩, none, false, identityM, ⟨1, 1, 1⟩⟩

/-- A single-key translation channel targeting node 0. -/
def demoChannel : Channel := ⟨0, .translation, [0], [1, 2, 3], 0, none⟩

/-- A one-node, one-channel scene. -/
def demoScene : Scene := ⟨[demoNode], [⟨[demoChannel]⟩]⟩

/-- The channel phase on the demo scene: node 0 gets `changed = true` and
translation `(1,2,3)` (key 0, exact-key path `t = 1`). -/
theorem demoScene_channelPhase :
    channelPhase demoScene 0 0 =
      [AnimNode.mk (some ⟨0, 0, 0, 1⟩) (some ⟨1, 2, 3⟩) none true identityM
        ⟨1, 1, 1⟩] := by
  have hff : findFrameAux [(0:ℝ)] 0 0 = 0 := by
    rw [findFrameAux]
    rw [dif_neg]
    simp
  have hks : keySearch [(0:ℝ)] none 0 0 = 0 := by
    rw [keySearch]
    exact hff
  simp [channelPhase, demoScene, clampAnim, runChannels, applyChannel, hks,
    updNode, demoChannel, demoNode, vec3At, List.getD]

/-- Witness for C8 on the demo scene. -/
theorem setTime_marks_and_rebuilds_witness :
    ((setTime demoScene 0 0).nodes.getD 0 default).changed = true ∧
    ((setTime demoScene 0 0).nodes.getD 0 default).transform =
      rebuildScalePatch ⟨1, 1, 1⟩
        (gp_mm (translator ⟨1, 2, 3⟩) (rotorOfQuat ⟨0, 0, 0, 1⟩)) ∧
    sw_mo (gp_mm (translator ⟨1, 2, 3⟩) (rotorOfQuat ⟨0, 0, 0, 1⟩)) =
      V3.mk 1 2 3 := by
  have h := setTime_marks_and_rebuilds demoScene 0 0 0 ⟨0, 0, 0, 1⟩ ⟨1, 2, 3⟩
    (by simp [demoScene])
    (by simp [demoScene])
    ⟨demoChannel, by simp [demoScene, clampAnim], rfl⟩
    (by rw [demoScene_channelPhase]; rfl)
    (by rw [demoScene_channelPhase]; rfl)
    (by rw [demoScene_channelPhase]; rfl)
    (by norm_num)
  refine ⟨h.1, ?_, h.2.2.2.2⟩
  have h2 := h.2.1
  rw [demoScene_channelPhase] at h2
  exact h2

end LookMa
